import Mathlib

/-!
Shallow embedding of `src/__main__.py` (class `RecursiveHyperSpace`).

The Python code folds extra coordinates of a point into 3D offsets on a
rotating plane and clamps each intermediate position into a cone of growing
slope.  Machine floats are modelled by real numbers; numpy's `deg2rad`,
`cos`, `sin`, `sqrt` become their `Real` counterparts.  Console printing
(the oversize / undersize notices) carries no data and is not modelled.
-/

/-- A 3D position, modelling the numpy array `[x, y, z]` used for
`base_pos` / `current_pos` / `candidate_pos`. -/
structure Pos where
  x : ℝ
  y : ℝ
  z : ℝ


/-- One entry of `trace_steps`: a dict `{'pos': ..., 'label': ...}`. -/
structure TraceStep where
  pos : Pos
  label : String


/-- One entry of `vector_lines`: a dict `{'start': ..., 'end': ..., 'name': ...}`.
The Python key `end` is a Lean keyword, rendered here as `endPos`. -/
structure Segment where
  start : Pos
  endPos : Pos
  name : String


/-- One entry of `points_data`: a dict `{'label': ..., 'trace': ..., 'vectors': ...}`. -/
structure Point where
  label : String
  trace : List TraceStep
  vectors : List Segment


/-- The state of a `RecursiveHyperSpace` instance: the five constructor
parameters (`limit_dimensions`, `system_length`, `base_slope`,
`slope_growth`, `angle_step`) plus the mutable `points_data` and
`max_dims_used`. -/
structure HyperSpace where
  limit_dims : ℕ
  h : ℝ
  base_slope : ℝ
  slope_growth : ℝ
  angle_step : ℝ
  points_data : List Point
  max_dims_used : ℕ

/-- `__init__`: fresh instance with empty `points_data` and `max_dims_used = 0`. -/
def HyperSpace.init (limit_dimensions : ℕ) (system_length base_slope slope_growth angle_step : ℝ) : HyperSpace :=
  ⟨limit_dimensions, system_length, base_slope, slope_growth, angle_step, [], 0⟩

/-- `_calculate_cone_slope`: `self.base_slope + (self.slope_growth * (dim_index_offset + 1))`. -/
def _calculate_cone_slope (hs : HyperSpace) (dim_index_offset : ℕ) : ℝ :=
  hs.base_slope + hs.slope_growth * (dim_index_offset + 1)

/-- `np.deg2rad`: degrees to radians. -/
noncomputable def deg2rad (d : ℝ) : ℝ :=
  d * (Real.pi / 180)

/-- The lateral radius `np.sqrt(candidate_pos[1]**2 + candidate_pos[2]**2)`. -/
noncomputable def radius (p : Pos) : ℝ :=
  Real.sqrt (p.y ^ 2 + p.z ^ 2)

/-- The clamp conditional of `add_point` (lines 65-75): with
`max_radius = abs(current_x) * this_cone_slope` and `current_r` the lateral
radius, if `current_r > max_radius` scale the `y` and `z` components by
`scale = max_radius / current_r`; otherwise leave the candidate unchanged. -/
noncomputable def clampStep (hs : HyperSpace) (i : ℕ) (candidate_pos : Pos) : Pos :=
  if radius candidate_pos > |candidate_pos.x| * _calculate_cone_slope hs i then
    ⟨candidate_pos.x,
      candidate_pos.y * (|candidate_pos.x| * _calculate_cone_slope hs i / radius candidate_pos),
      candidate_pos.z * (|candidate_pos.x| * _calculate_cone_slope hs i / radius candidate_pos)⟩
  else candidate_pos

/-- One fold's candidate position (lines 55-63): with
`deg_angle = 90 + angle_step * i`, `dy = magnitude * cos(rad_angle)`,
`dz = magnitude * sin(rad_angle)`, the candidate is the previous position
plus the vector `(0, dy, dz)`. -/
noncomputable def candidatePos (hs : HyperSpace) (current_pos : Pos) (magnitude : ℝ) (i : ℕ) : Pos :=
  ⟨current_pos.x,
    current_pos.y + magnitude * Real.cos (deg2rad (90 + hs.angle_step * i)),
    current_pos.z + magnitude * Real.sin (deg2rad (90 + hs.angle_step * i))⟩

/-- The `for i, magnitude in enumerate(extra_dims)` loop of `add_point`
(lines 53-84), started at loop index `i`: builds the remaining
`trace_steps` (beyond the base step) and `vector_lines`.  Each fold takes
the candidate position, runs the clamp conditional, and records the step
with label `"D{4+i} {status}"` plus a vector line `"D{4+i} Vector"`. -/
noncomputable def foldExtras (hs : HyperSpace) (current_pos : Pos) (extra_dims : List ℝ) (i : ℕ) :
    List TraceStep × List Segment :=
  match extra_dims with
  | [] => ([], [])
  | magnitude :: rest =>
    let candidate_pos := candidatePos hs current_pos magnitude i
    let status : String :=
      if radius candidate_pos > |candidate_pos.x| * _calculate_cone_slope hs i then "(Clamped)" else ""
    let new_pos := clampStep hs i candidate_pos
    let next := foldExtras hs new_pos rest (i + 1)
    (⟨new_pos, "D" ++ toString (4 + i) ++ " " ++ status⟩ :: next.1,
      ⟨current_pos, new_pos, "D" ++ toString (4 + i) ++ " Vector"⟩ :: next.2)

/-- The truncation step of `add_point` (lines 28-32): a coordinate list
longer than `limit_dims` is cut to its first `limit_dims` entries. -/
def truncate (hs : HyperSpace) (coords : List ℝ) : List ℝ :=
  if coords.length > hs.limit_dims then coords.take hs.limit_dims else coords

/-- `base_pos = np.array(coords[0:3])`: the first three coordinates of an
(already truncated, length ≥ 3) coordinate list. -/
def basePos (coords : List ℝ) : Pos :=
  ⟨coords.headI, coords.tail.headI, coords.tail.tail.headI⟩

/-- The Point built by `add_point` from an accepted, already truncated
coordinate list: the base step labelled `"{label} (3D)"` (line 51)
followed by the fold loop's trace steps and vector lines, packed as the
dict appended to `points_data` (lines 86-90). -/
noncomputable def projectedPoint (hs : HyperSpace) (coords : List ℝ) (label : String) : Point :=
  ⟨label,
    ⟨basePos coords, label ++ " (3D)"⟩ :: (foldExtras hs (basePos coords) (coords.drop 3) 0).1,
    (foldExtras hs (basePos coords) (coords.drop 3) 0).2⟩

/-- The Point Projector part of `add_point`: after truncation, a list of
fewer than 3 coordinates produces no Point (the early `return` at line 37);
otherwise the Point described by `projectedPoint` is produced. -/
noncomputable def project (hs : HyperSpace) (coords : List ℝ) (label : String) : Option Point :=
  if (truncate hs coords).length < 3 then none
  else some (projectedPoint hs (truncate hs coords) label)

/-- `add_point` as a state transformer: on rejection the state is returned
unchanged; on success `max_dims_used` is raised to `len(extra_dims)` when
larger (lines 44-45) and the produced Point is appended to `points_data`
(lines 86-90). -/
noncomputable def add_point (hs : HyperSpace) (coords : List ℝ) (label : String) : HyperSpace :=
  match project hs coords label with
  | none => hs
  | some p =>
    { hs with
      max_dims_used :=
        if (truncate hs coords).length - 3 > hs.max_dims_used
        then (truncate hs coords).length - 3 else hs.max_dims_used,
      points_data := hs.points_data ++ [p] }

/-- The body of `add_points_from_list`, with the running `enumerate` index
made explicit: entry number `i` (zero-based) is added with label
`"BatchPoint_{i+1}"`. -/
noncomputable def addPointsFromListAux (hs : HyperSpace) (i : ℕ) : List (List ℝ) → HyperSpace
  | [] => hs
  | p_coords :: rest =>
    addPointsFromListAux (add_point hs p_coords ("BatchPoint_" ++ toString (i + 1))) (i + 1) rest

/-- `add_points_from_list`: `for i, p_coords in enumerate(list_of_points):
add_point(p_coords, label=f"BatchPoint_{i+1}")`. -/
noncomputable def add_points_from_list (hs : HyperSpace) (list_of_points : List (List ℝ)) : HyperSpace :=
  addPointsFromListAux hs 0 list_of_points

/-- A mutating operation on the collection: one `add_point` call or one
`add_points_from_list` call. -/
inductive Op where
  | add : List ℝ → String → Op
  | addBatch : List (List ℝ) → Op

/-- Apply one operation to the state. -/
noncomputable def applyOp (hs : HyperSpace) : Op → HyperSpace
  | .add coords label => add_point hs coords label
  | .addBatch ls => add_points_from_list hs ls

/-- Run a sequence of operations. -/
noncomputable def runOps (hs : HyperSpace) (ops : List Op) : HyperSpace :=
  ops.foldl applyOp hs

/-- The maximum number of extra dimensions over the stored points:
`max over points of (len(point.trace) - 1)`, `0` for the empty collection. -/
def collectionMax (pts : List Point) : ℕ :=
  pts.foldr (fun p m => max (p.trace.length - 1) m) 0

/-- The Point Collection invariant of the spec:
`max_dims_used = max over points of (len(trace) - 1)`. -/
def CollectionInv (hs : HyperSpace) : Prop :=
  hs.max_dims_used = collectionMax hs.points_data

/-- The instance built by the module's test harness:
`RecursiveHyperSpace(limit_dimensions=5)` with the default parameters
`system_length=12`, `base_slope=0.25`, `slope_growth=0.15`, `angle_step=45`. -/
noncomputable def hs0 : HyperSpace := HyperSpace.init 5 12 (1/4) (3/20) 45

lemma cone_slope_nonneg (hs : HyperSpace) (hb : 0 ≤ hs.base_slope)
    (hg : 0 ≤ hs.slope_growth) (i : ℕ) : 0 ≤ _calculate_cone_slope hs i := by
  unfold _calculate_cone_slope
  have h1 : (0:ℝ) ≤ (i : ℝ) + 1 := by positivity
  nlinarith

lemma radius_nonneg (p : Pos) : 0 ≤ radius p := Real.sqrt_nonneg _

lemma radius_scale (p : Pos) (s : ℝ) :
    radius ⟨p.x, p.y * s, p.z * s⟩ = |s| * radius p := by
  show Real.sqrt ((p.y * s) ^ 2 + (p.z * s) ^ 2) = |s| * Real.sqrt (p.y ^ 2 + p.z ^ 2)
  rw [show (p.y * s) ^ 2 + (p.z * s) ^ 2 = s ^ 2 * (p.y ^ 2 + p.z ^ 2) by ring,
    Real.sqrt_mul (sq_nonneg s), Real.sqrt_sq_eq_abs]

lemma clampStep_x (hs : HyperSpace) (i : ℕ) (c : Pos) : (clampStep hs i c).x = c.x := by
  unfold clampStep
  split <;> rfl

lemma clampStep_of_le (hs : HyperSpace) (i : ℕ) (c : Pos)
    (hle : radius c ≤ |c.x| * _calculate_cone_slope hs i) : clampStep hs i c = c := by
  unfold clampStep
  rw [if_neg (not_lt.2 hle)]

lemma clampStep_of_gt (hs : HyperSpace) (i : ℕ) (c : Pos)
    (hgt : radius c > |c.x| * _calculate_cone_slope hs i) :
    clampStep hs i c =
      ⟨c.x, c.y * (|c.x| * _calculate_cone_slope hs i / radius c),
        c.z * (|c.x| * _calculate_cone_slope hs i / radius c)⟩ := by
  unfold clampStep
  rw [if_pos hgt]

lemma clampStep_radius_gt (hs : HyperSpace) (i : ℕ) (c : Pos)
    (hmr : 0 ≤ |c.x| * _calculate_cone_slope hs i)
    (hgt : radius c > |c.x| * _calculate_cone_slope hs i) :
    radius (clampStep hs i c) = |c.x| * _calculate_cone_slope hs i := by
  have hr : 0 < radius c := lt_of_le_of_lt hmr hgt
  rw [clampStep_of_gt hs i c hgt, radius_scale,
    abs_of_nonneg (div_nonneg hmr hr.le), div_mul_cancel₀ _ hr.ne']

lemma clampStep_radius_le (hs : HyperSpace) (i : ℕ) (c : Pos)
    (hmr : 0 ≤ |c.x| * _calculate_cone_slope hs i) :
    radius (clampStep hs i c) ≤ |(clampStep hs i c).x| * _calculate_cone_slope hs i := by
  rw [clampStep_x]
  by_cases hgt : radius c > |c.x| * _calculate_cone_slope hs i
  · rw [clampStep_radius_gt hs i c hmr hgt]
  · rw [clampStep_of_le hs i c (not_lt.1 hgt)]
    exact not_lt.1 hgt

/-- C2: the Cone Slope Function returns exactly
`base_slope + slope_growth * (i + 1)` for every index `i`, and for
`slope_growth > 0` it is strictly increasing in `i`.  (It is a pure total
function by construction of the embedding.) -/
theorem cone_slope_spec (hs : HyperSpace) :
    (∀ i : ℕ, _calculate_cone_slope hs i = hs.base_slope + hs.slope_growth * (i + 1)) ∧
    (0 < hs.slope_growth → ∀ i j : ℕ, i < j →
      _calculate_cone_slope hs i < _calculate_cone_slope hs j) := by
  refine ⟨fun i => rfl, fun hg i j hij => ?_⟩
  unfold _calculate_cone_slope
  have hcast : (i : ℝ) < j := by exact_mod_cast hij
  nlinarith

/-- Witness for C2 at the test-harness instance, indices 0 < 1. -/
theorem cone_slope_spec_witness :
    0 < hs0.slope_growth ∧ (0:ℕ) < 1 ∧
      _calculate_cone_slope hs0 0 < _calculate_cone_slope hs0 1 :=
  ⟨by norm_num [hs0, HyperSpace.init], by decide,
    (cone_slope_spec hs0).2 (by norm_num [hs0, HyperSpace.init]) 0 1 (by decide)⟩

/-- C6: with nonnegative slope parameters, whenever the clamp branch
fires the radius divided by is strictly positive (never a division by
zero), and the degenerate `radius = 0` case skips clamping entirely.
All remaining arithmetic of the fold is total by construction. -/
theorem folding_total (hs : HyperSpace) (i : ℕ)
    (hb : 0 ≤ hs.base_slope) (hg : 0 ≤ hs.slope_growth) :
    (∀ c : Pos, radius c > |c.x| * _calculate_cone_slope hs i → 0 < radius c) ∧
    (∀ c : Pos, radius c = 0 → clampStep hs i c = c) := by
  have hmr : ∀ c : Pos, 0 ≤ |c.x| * _calculate_cone_slope hs i := fun c =>
    mul_nonneg (abs_nonneg _) (cone_slope_nonneg hs hb hg i)
  refine ⟨fun c hgt => lt_of_le_of_lt (hmr c) hgt, fun c h0 => ?_⟩
  apply clampStep_of_le
  rw [h0]
  exact hmr c

/-- Witness for C6: at the test-harness instance the candidate `(0, 1, 0)`
triggers the clamp branch and its radius is indeed positive. -/
theorem folding_total_witness :
    0 ≤ hs0.base_slope ∧ 0 ≤ hs0.slope_growth ∧ 0 < radius ⟨0, 1, 0⟩ :=
  ⟨by norm_num [hs0, HyperSpace.init], by norm_num [hs0, HyperSpace.init],
    (folding_total hs0 0 (by norm_num [hs0, HyperSpace.init])
        (by norm_num [hs0, HyperSpace.init])).1 ⟨0, 1, 0⟩
      (by
        show Real.sqrt ((1:ℝ) ^ 2 + 0 ^ 2) > |(0:ℝ)| * _calculate_cone_slope hs0 0
        norm_num [Real.sqrt_one])⟩

/-- C7: the clamp step is idempotent (for nonnegative slope parameters):
an already-contained candidate is left unchanged, and clamping twice
equals clamping once. -/
theorem clamp_idempotent (hs : HyperSpace) (i : ℕ) (c : Pos)
    (hb : 0 ≤ hs.base_slope) (hg : 0 ≤ hs.slope_growth) :
    (radius c ≤ |c.x| * _calculate_cone_slope hs i → clampStep hs i c = c) ∧
    clampStep hs i (clampStep hs i c) = clampStep hs i c := by
  have hmr : 0 ≤ |c.x| * _calculate_cone_slope hs i :=
    mul_nonneg (abs_nonneg _) (cone_slope_nonneg hs hb hg i)
  exact ⟨clampStep_of_le hs i c,
    clampStep_of_le hs i (clampStep hs i c) (clampStep_radius_le hs i c hmr)⟩

/-- Witness for C7 at the test-harness instance and candidate `(1, 0, 0)`. -/
theorem clamp_idempotent_witness :
    0 ≤ hs0.base_slope ∧ 0 ≤ hs0.slope_growth ∧
    ((radius ⟨1, 0, 0⟩ ≤ |(Pos.mk 1 0 0).x| * _calculate_cone_slope hs0 0 →
        clampStep hs0 0 ⟨1, 0, 0⟩ = ⟨1, 0, 0⟩) ∧
      clampStep hs0 0 (clampStep hs0 0 ⟨1, 0, 0⟩) = clampStep hs0 0 ⟨1, 0, 0⟩) :=
  ⟨by norm_num [hs0, HyperSpace.init], by norm_num [hs0, HyperSpace.init],
    clamp_idempotent hs0 0 ⟨1, 0, 0⟩ (by norm_num [hs0, HyperSpace.init])
      (by norm_num [hs0, HyperSpace.init])⟩

/-- C10 (amended): when the clamp branch fires, the resulting radius
equals `max_radius` exactly and `y`, `z` are scaled by the common
NONNEGATIVE factor `max_radius / radius` (the factor is zero, not
positive, when `candidate.x = 0`). -/
theorem clamp_surface (hs : HyperSpace) (i : ℕ) (c : Pos)
    (hb : 0 ≤ hs.base_slope) (hg : 0 ≤ hs.slope_growth)
    (hgt : radius c > |c.x| * _calculate_cone_slope hs i) :
    radius (clampStep hs i c) = |c.x| * _calculate_cone_slope hs i ∧
    (clampStep hs i c).y = c.y * (|c.x| * _calculate_cone_slope hs i / radius c) ∧
    (clampStep hs i c).z = c.z * (|c.x| * _calculate_cone_slope hs i / radius c) ∧
    0 ≤ |c.x| * _calculate_cone_slope hs i / radius c := by
  have hmr : 0 ≤ |c.x| * _calculate_cone_slope hs i :=
    mul_nonneg (abs_nonneg _) (cone_slope_nonneg hs hb hg i)
  have hr : 0 < radius c := lt_of_le_of_lt hmr hgt
  refine ⟨clampStep_radius_gt hs i c hmr hgt, ?_, ?_, div_nonneg hmr hr.le⟩
  · rw [clampStep_of_gt hs i c hgt]
  · rw [clampStep_of_gt hs i c hgt]

/-- Counterexample for C10 as stated: at the test-harness instance and
candidate `(0, 1, 0)` the clamp branch fires, yet the scale factor
`max_radius / radius` is `0 / 1 = 0`, which is not positive. -/
theorem clamp_surface_counterexample :
    radius ⟨0, 1, 0⟩ > |(Pos.mk 0 1 0).x| * _calculate_cone_slope hs0 0 ∧
    ¬ 0 < |(Pos.mk 0 1 0).x| * _calculate_cone_slope hs0 0 / radius ⟨0, 1, 0⟩ := by
  constructor
  · show Real.sqrt ((1:ℝ) ^ 2 + 0 ^ 2) > |(0:ℝ)| * _calculate_cone_slope hs0 0
    norm_num [Real.sqrt_one]
  · show ¬ 0 < |(0:ℝ)| * _calculate_cone_slope hs0 0 / radius ⟨0, 1, 0⟩
    norm_num

/-- Witness for C10 at the test-harness instance and candidate `(0, 1, 0)`. -/
theorem clamp_surface_witness :
    0 ≤ hs0.base_slope ∧ 0 ≤ hs0.slope_growth ∧
    radius (clampStep hs0 0 ⟨0, 1, 0⟩) = |(Pos.mk 0 1 0).x| * _calculate_cone_slope hs0 0 :=
  ⟨by norm_num [hs0, HyperSpace.init], by norm_num [hs0, HyperSpace.init],
    (clamp_surface hs0 0 ⟨0, 1, 0⟩ (by norm_num [hs0, HyperSpace.init])
        (by norm_num [hs0, HyperSpace.init])
        (by
          show Real.sqrt ((1:ℝ) ^ 2 + 0 ^ 2) > |(0:ℝ)| * _calculate_cone_slope hs0 0
          norm_num [Real.sqrt_one])).1⟩

lemma truncate_length (hs : HyperSpace) (coords : List ℝ) :
    (truncate hs coords).length = min coords.length hs.limit_dims := by
  unfold truncate
  split_ifs with hgt
  · rw [List.length_take]
    omega
  · omega

lemma foldExtras_nil (hs : HyperSpace) (pos : Pos) (i : ℕ) :
    foldExtras hs pos [] i = ([], []) := rfl

lemma project_of_short (hs : HyperSpace) (coords : List ℝ) (label : String)
    (hlt : (truncate hs coords).length < 3) : project hs coords label = none := by
  unfold project
  rw [if_pos hlt]

lemma project_of_accepted (hs : HyperSpace) (coords : List ℝ) (label : String)
    (hge : 3 ≤ (truncate hs coords).length) :
    project hs coords label = some (projectedPoint hs (truncate hs coords) label) := by
  unfold project
  rw [if_neg (not_lt.2 hge)]

lemma add_point_of_none (hs : HyperSpace) (coords : List ℝ) (label : String)
    (hp : project hs coords label = none) : add_point hs coords label = hs := by
  unfold add_point
  rw [hp]

lemma add_point_of_some (hs : HyperSpace) (coords : List ℝ) (label : String) (p : Point)
    (hp : project hs coords label = some p) :
    add_point hs coords label = { hs with
      max_dims_used :=
        if (truncate hs coords).length - 3 > hs.max_dims_used
        then (truncate hs coords).length - 3 else hs.max_dims_used,
      points_data := hs.points_data ++ [p] } := by
  unfold add_point
  rw [hp]

lemma add_point_points_of_accepted (hs : HyperSpace) (coords : List ℝ) (label : String)
    (hge : 3 ≤ (truncate hs coords).length) :
    (add_point hs coords label).points_data =
      hs.points_data ++ [projectedPoint hs (truncate hs coords) label] := by
  rw [add_point_of_some hs coords label _ (project_of_accepted hs coords label hge)]

/-- C4: after truncation, an input with fewer than 3 coordinates produces
no Point and leaves the whole state unchanged; an input of exactly 3
coordinates (within the dimension limit, which the spec requires to be
at least 3) produces a Point with a one-step trace and no vectors. -/
theorem rejection_boundary (hs : HyperSpace) :
    (∀ (coords : List ℝ) (label : String), (truncate hs coords).length < 3 →
      add_point hs coords label = hs) ∧
    (∀ (coords : List ℝ) (label : String), coords.length = 3 → 3 ≤ hs.limit_dims →
      ∃ p : Point, (add_point hs coords label).points_data = hs.points_data ++ [p] ∧
        p.trace.length = 1 ∧ p.vectors = []) := by
  constructor
  · intro coords label hlt
    exact add_point_of_none hs coords label (project_of_short hs coords label hlt)
  · intro coords label h3 hl
    have htl : (truncate hs coords).length = 3 := by rw [truncate_length]; omega
    have hge : 3 ≤ (truncate hs coords).length := by omega
    have hdrop : (truncate hs coords).drop 3 = [] :=
      List.drop_eq_nil_of_le (by omega)
    refine ⟨projectedPoint hs (truncate hs coords) label,
      add_point_points_of_accepted hs coords label hge, ?_, ?_⟩
    · unfold projectedPoint
      rw [hdrop, foldExtras_nil]
      rfl
    · unfold projectedPoint
      rw [hdrop, foldExtras_nil]

/-- Witness for C4: in the test-harness instance, `[1, 2]` is rejected
with the state unchanged and `[1, 2, 3]` yields a one-step trace. -/
theorem rejection_boundary_witness :
    ((truncate hs0 [1, 2]).length < 3 ∧ add_point hs0 [1, 2] "C" = hs0) ∧
    (([1, 2, 3] : List ℝ).length = 3 ∧ 3 ≤ hs0.limit_dims ∧
      ∃ p : Point, (add_point hs0 [1, 2, 3] "A").points_data = hs0.points_data ++ [p] ∧
        p.trace.length = 1 ∧ p.vectors = []) :=
  ⟨⟨by decide, (rejection_boundary hs0).1 [1, 2] "C" (by decide)⟩,
    ⟨rfl, by decide, (rejection_boundary hs0).2 [1, 2, 3] "A" rfl (by decide)⟩⟩

/-- C3: for a coordinate list longer than `limit_dims` (with the
spec-required `limit_dims ≥ 3`), `add_point` behaves exactly as if called
on the first `limit_dims` coordinates, and the call still succeeds,
appending one Point. -/
theorem truncation_equiv (hs : HyperSpace) (coords : List ℝ) (label : String)
    (hl : 3 ≤ hs.limit_dims) (hlen : hs.limit_dims < coords.length) :
    add_point hs coords label = add_point hs (coords.take hs.limit_dims) label ∧
    ∃ p : Point, (add_point hs coords label).points_data = hs.points_data ++ [p] := by
  have ht1 : truncate hs coords = coords.take hs.limit_dims := by
    unfold truncate
    rw [if_pos hlen]
  have ht2 : truncate hs (coords.take hs.limit_dims) = coords.take hs.limit_dims := by
    unfold truncate
    rw [if_neg (by rw [List.length_take]; omega)]
  have hge : 3 ≤ (truncate hs coords).length := by rw [truncate_length]; omega
  constructor
  · unfold add_point project
    rw [ht1, ht2]
  · exact ⟨projectedPoint hs (truncate hs coords) label,
      add_point_points_of_accepted hs coords label hge⟩

/-- Witness for C3: the test harness's 7-coordinate "Overloaded Point"
against its 5-coordinate prefix. -/
theorem truncation_equiv_witness :
    3 ≤ hs0.limit_dims ∧ hs0.limit_dims < ([8, 0, 0, 2, 2, 99, 99] : List ℝ).length ∧
    add_point hs0 [8, 0, 0, 2, 2, 99, 99] "Overloaded Point" =
      add_point hs0 (([8, 0, 0, 2, 2, 99, 99] : List ℝ).take hs0.limit_dims) "Overloaded Point" ∧
    ∃ p : Point, (add_point hs0 [8, 0, 0, 2, 2, 99, 99] "Overloaded Point").points_data =
      hs0.points_data ++ [p] :=
  ⟨by decide, by decide,
    truncation_equiv hs0 [8, 0, 0, 2, 2, 99, 99] "Overloaded Point" (by decide) (by decide)⟩

lemma foldExtras_cons (hs : HyperSpace) (pos : Pos) (m : ℝ) (rest : List ℝ) (i : ℕ) :
    foldExtras hs pos (m :: rest) i =
      (⟨clampStep hs i (candidatePos hs pos m i),
          "D" ++ toString (4 + i) ++ " " ++
            (if radius (candidatePos hs pos m i) >
                |(candidatePos hs pos m i).x| * _calculate_cone_slope hs i
              then "(Clamped)" else "")⟩ ::
          (foldExtras hs (clampStep hs i (candidatePos hs pos m i)) rest (i + 1)).1,
        ⟨pos, clampStep hs i (candidatePos hs pos m i), "D" ++ toString (4 + i) ++ " Vector"⟩ ::
          (foldExtras hs (clampStep hs i (candidatePos hs pos m i)) rest (i + 1)).2) := rfl

lemma foldExtras_length (hs : HyperSpace) :
    ∀ (extras : List ℝ) (pos : Pos) (i : ℕ),
      (foldExtras hs pos extras i).1.length = extras.length := by
  intro extras
  induction extras with
  | nil =>
    intro pos i
    rfl
  | cons m rest ih =>
    intro pos i
    rw [foldExtras_cons]
    simp only [List.length_cons, ih]

lemma candidatePos_x (hs : HyperSpace) (pos : Pos) (m : ℝ) (i : ℕ) :
    (candidatePos hs pos m i).x = pos.x := rfl

lemma foldExtras_mem_x (hs : HyperSpace) :
    ∀ (extras : List ℝ) (pos : Pos) (i : ℕ) (s : TraceStep),
      s ∈ (foldExtras hs pos extras i).1 → s.pos.x = pos.x := by
  intro extras
  induction extras with
  | nil =>
    intro pos i s hmem
    simp [foldExtras_nil] at hmem
  | cons m rest ih =>
    intro pos i s hmem
    rw [foldExtras_cons] at hmem
    rcases List.mem_cons.1 hmem with hmem | hmem
    · rw [hmem]
      exact clampStep_x hs i _
    · rw [ih _ _ _ hmem, clampStep_x hs i _]
      exact candidatePos_x hs pos m i

lemma truncate_headI (hs : HyperSpace) (coords : List ℝ) (hl : 1 ≤ hs.limit_dims) :
    (truncate hs coords).headI = coords.headI := by
  obtain ⟨k, hk⟩ : ∃ k, hs.limit_dims = k + 1 := ⟨hs.limit_dims - 1, by omega⟩
  unfold truncate
  split_ifs with hgt
  · cases coords with
    | nil => simp
    | cons a t =>
      rw [hk]
      rfl
  · rfl

/-- C8: for every accepted input, every position of the produced trace has
the same `x` coordinate, equal to the first input coordinate — folds only
offset `y` and `z`, and clamping never alters `x`. -/
theorem x_coordinate_preserved (hs : HyperSpace) (coords : List ℝ) (label : String)
    (h3 : 3 ≤ coords.length) (hl : 3 ≤ hs.limit_dims) :
    ∃ p : Point, (add_point hs coords label).points_data = hs.points_data ++ [p] ∧
      ∀ s ∈ p.trace, s.pos.x = coords.headI := by
  have hge : 3 ≤ (truncate hs coords).length := by rw [truncate_length]; omega
  have hhead : (truncate hs coords).headI = coords.headI :=
    truncate_headI hs coords (by omega)
  refine ⟨projectedPoint hs (truncate hs coords) label,
    add_point_points_of_accepted hs coords label hge, ?_⟩
  intro s hmem
  unfold projectedPoint at hmem
  rcases List.mem_cons.1 hmem with hmem | hmem
  · rw [hmem]
    exact hhead
  · rw [foldExtras_mem_x hs _ _ _ s hmem]
    exact hhead

/-- Witness for C8: the test harness's first valid point `[8, 0, 0, 2, 20]`. -/
theorem x_coordinate_preserved_witness :
    3 ≤ ([8, 0, 0, 2, 20] : List ℝ).length ∧ 3 ≤ hs0.limit_dims ∧
    ∃ p : Point,
      (add_point hs0 [8, 0, 0, 2, 20] "Valid Point").points_data = hs0.points_data ++ [p] ∧
      ∀ s ∈ p.trace, s.pos.x = ([8, 0, 0, 2, 20] : List ℝ).headI :=
  ⟨by decide, by decide,
    x_coordinate_preserved hs0 [8, 0, 0, 2, 20] "Valid Point" (by decide) (by decide)⟩

lemma foldExtras_get_radius (hs : HyperSpace)
    (hb : 0 ≤ hs.base_slope) (hg : 0 ≤ hs.slope_growth) :
    ∀ (extras : List ℝ) (pos : Pos) (i k : ℕ)
      (hk : k < (foldExtras hs pos extras i).1.length),
      radius ((foldExtras hs pos extras i).1.get ⟨k, hk⟩).pos ≤
        |((foldExtras hs pos extras i).1.get ⟨k, hk⟩).pos.x| *
          _calculate_cone_slope hs (i + k) := by
  intro extras
  induction extras with
  | nil =>
    intro pos i k hk
    simp [foldExtras_nil] at hk
  | cons m rest ih =>
    intro pos i k hk
    cases k with
    | zero =>
      have hmr : 0 ≤ |(candidatePos hs pos m i).x| * _calculate_cone_slope hs i :=
        mul_nonneg (abs_nonneg _) (cone_slope_nonneg hs hb hg i)
      have hgoal := clampStep_radius_le hs i (candidatePos hs pos m i) hmr
      rw [Nat.add_zero]
      exact hgoal
    | succ k =>
      have hk' : k < (foldExtras hs (clampStep hs i (candidatePos hs pos m i)) rest (i + 1)).1.length := by
        rw [foldExtras_length] at hk ⊢
        simpa using hk
      have hrec := ih (clampStep hs i (candidatePos hs pos m i)) (i + 1) k hk'
      rw [show i + (k + 1) = i + 1 + k by omega]
      exact hrec

/-- C1: for every accepted input (nonnegative slope parameters as the spec
configuration requires), each folded trace step at index `i ≥ 1` satisfies
`sqrt(y^2 + z^2) ≤ |x| * cone_slope(i-1)` — exactly, in real arithmetic,
hence within any numerical tolerance. -/
theorem containment_invariant (hs : HyperSpace) (coords : List ℝ) (label : String)
    (hb : 0 ≤ hs.base_slope) (hg : 0 ≤ hs.slope_growth)
    (h3 : 3 ≤ coords.length) (hl : 3 ≤ hs.limit_dims) :
    ∃ p : Point, (add_point hs coords label).points_data = hs.points_data ++ [p] ∧
      ∀ (i : ℕ) (hi : i < p.trace.length), 1 ≤ i →
        radius (p.trace.get ⟨i, hi⟩).pos ≤
          |(p.trace.get ⟨i, hi⟩).pos.x| * _calculate_cone_slope hs (i - 1) := by
  have hge : 3 ≤ (truncate hs coords).length := by rw [truncate_length]; omega
  refine ⟨projectedPoint hs (truncate hs coords) label,
    add_point_points_of_accepted hs coords label hge, ?_⟩
  intro i hi h1
  obtain ⟨k, rfl⟩ : ∃ k, i = k + 1 := ⟨i - 1, by omega⟩
  have hk : k < (foldExtras hs (basePos (truncate hs coords))
      ((truncate hs coords).drop 3) 0).1.length := by
    have hlen := hi
    simp only [projectedPoint, List.length_cons] at hlen
    omega
  have hget : (projectedPoint hs (truncate hs coords) label).trace.get ⟨k + 1, hi⟩ =
      (foldExtras hs (basePos (truncate hs coords))
        ((truncate hs coords).drop 3) 0).1.get ⟨k, hk⟩ := rfl
  rw [hget]
  have hrec := foldExtras_get_radius hs hb hg ((truncate hs coords).drop 3)
    (basePos (truncate hs coords)) 0 k hk
  rw [Nat.zero_add] at hrec
  exact hrec

/-- Witness for C1: the test harness's first valid point `[8, 0, 0, 2, 20]`. -/
theorem containment_invariant_witness :
    0 ≤ hs0.base_slope ∧ 0 ≤ hs0.slope_growth ∧
    3 ≤ ([8, 0, 0, 2, 20] : List ℝ).length ∧ 3 ≤ hs0.limit_dims ∧
    ∃ p : Point,
      (add_point hs0 [8, 0, 0, 2, 20] "Valid Point").points_data = hs0.points_data ++ [p] ∧
      ∀ (i : ℕ) (hi : i < p.trace.length), 1 ≤ i →
        radius (p.trace.get ⟨i, hi⟩).pos ≤
          |(p.trace.get ⟨i, hi⟩).pos.x| * _calculate_cone_slope hs0 (i - 1) :=
  ⟨by norm_num [hs0, HyperSpace.init], by norm_num [hs0, HyperSpace.init],
    by decide, by decide,
    containment_invariant hs0 [8, 0, 0, 2, 20] "Valid Point"
      (by norm_num [hs0, HyperSpace.init]) (by norm_num [hs0, HyperSpace.init])
      (by decide) (by decide)⟩

lemma collectionMax_foldr_init (pts : List Point) (a : ℕ) :
    pts.foldr (fun p m => max (p.trace.length - 1) m) a = max (collectionMax pts) a := by
  induction pts with
  | nil =>
    simp [collectionMax]
  | cons q t ih =>
    unfold collectionMax at *
    simp only [List.foldr_cons]
    rw [ih]
    omega

lemma collectionMax_append (pts : List Point) (p : Point) :
    collectionMax (pts ++ [p]) = max (collectionMax pts) (p.trace.length - 1) := by
  unfold collectionMax
  rw [List.foldr_append, collectionMax_foldr_init]
  simp [collectionMax]

lemma projectedPoint_trace_length (hs : HyperSpace) (coords : List ℝ) (label : String) :
    (projectedPoint hs coords label).trace.length = coords.length - 3 + 1 := by
  unfold projectedPoint
  simp only [List.length_cons, foldExtras_length, List.length_drop]

lemma inv_add_point (hs : HyperSpace) (coords : List ℝ) (label : String)
    (hinv : CollectionInv hs) : CollectionInv (add_point hs coords label) := by
  by_cases hc : (truncate hs coords).length < 3
  · rw [add_point_of_none hs coords label (project_of_short hs coords label hc)]
    exact hinv
  · push_neg at hc
    rw [add_point_of_some hs coords label _ (project_of_accepted hs coords label hc)]
    unfold CollectionInv at hinv ⊢
    show (if (truncate hs coords).length - 3 > hs.max_dims_used
        then (truncate hs coords).length - 3 else hs.max_dims_used) =
      collectionMax (hs.points_data ++ [projectedPoint hs (truncate hs coords) label])
    rw [collectionMax_append, ← hinv, projectedPoint_trace_length]
    split_ifs <;> omega

lemma mono_add_point (hs : HyperSpace) (coords : List ℝ) (label : String) :
    hs.max_dims_used ≤ (add_point hs coords label).max_dims_used := by
  by_cases hc : (truncate hs coords).length < 3
  · rw [add_point_of_none hs coords label (project_of_short hs coords label hc)]
  · push_neg at hc
    rw [add_point_of_some hs coords label _ (project_of_accepted hs coords label hc)]
    show hs.max_dims_used ≤ (if (truncate hs coords).length - 3 > hs.max_dims_used
        then (truncate hs coords).length - 3 else hs.max_dims_used)
    split_ifs <;> omega

lemma inv_addPointsAux : ∀ (l : List (List ℝ)) (hs : HyperSpace) (i : ℕ),
    CollectionInv hs → CollectionInv (addPointsFromListAux hs i l) := by
  intro l
  induction l with
  | nil =>
    intro hs i hinv
    exact hinv
  | cons c rest ih =>
    intro hs i hinv
    exact ih _ _ (inv_add_point _ _ _ hinv)

lemma mono_addPointsAux : ∀ (l : List (List ℝ)) (hs : HyperSpace) (i : ℕ),
    hs.max_dims_used ≤ (addPointsFromListAux hs i l).max_dims_used := by
  intro l
  induction l with
  | nil =>
    intro hs i
    exact le_rfl
  | cons c rest ih =>
    intro hs i
    exact le_trans (mono_add_point _ _ _) (ih _ _)

lemma inv_applyOp (hs : HyperSpace) (op : Op) (hinv : CollectionInv hs) :
    CollectionInv (applyOp hs op) := by
  cases op with
  | add coords label => exact inv_add_point hs coords label hinv
  | addBatch ls => exact inv_addPointsAux ls hs 0 hinv

lemma mono_applyOp (hs : HyperSpace) (op : Op) :
    hs.max_dims_used ≤ (applyOp hs op).max_dims_used := by
  cases op with
  | add coords label => exact mono_add_point hs coords label
  | addBatch ls => exact mono_addPointsAux ls hs 0

lemma inv_runOps : ∀ (ops : List Op) (hs : HyperSpace),
    CollectionInv hs → CollectionInv (runOps hs ops) := by
  intro ops
  induction ops with
  | nil =>
    intro hs hinv
    exact hinv
  | cons op rest ih =>
    intro hs hinv
    exact ih _ (inv_applyOp hs op hinv)

lemma mono_runOps : ∀ (ops : List Op) (hs : HyperSpace),
    hs.max_dims_used ≤ (runOps hs ops).max_dims_used := by
  intro ops
  induction ops with
  | nil =>
    intro hs
    exact le_rfl
  | cons op rest ih =>
    intro hs
    exact le_trans (mono_applyOp hs op) (ih _)

/-- C5: after any sequence of add / batch operations from a fresh
instance, `max_dims_used` equals the maximum over stored points of
`len(trace) - 1` (in particular `0` for the empty collection), and it
never decreases across operations. -/
theorem max_dims_spec :
    (∀ (limit : ℕ) (len b g a : ℝ) (ops : List Op),
      CollectionInv (runOps (HyperSpace.init limit len b g a) ops)) ∧
    (∀ hs : HyperSpace, CollectionInv hs → hs.points_data = [] → hs.max_dims_used = 0) ∧
    (∀ (hs : HyperSpace) (ops : List Op),
      hs.max_dims_used ≤ (runOps hs ops).max_dims_used) := by
  refine ⟨fun limit len b g a ops => inv_runOps ops _ rfl, fun hs hinv hemp => ?_,
    fun hs ops => mono_runOps ops hs⟩
  unfold CollectionInv at hinv
  rw [hinv, hemp]
  rfl

lemma add_point_limit_dims (hs : HyperSpace) (coords : List ℝ) (label : String) :
    (add_point hs coords label).limit_dims = hs.limit_dims := by
  unfold add_point
  cases project hs coords label <;> rfl

lemma add_point_base_slope (hs : HyperSpace) (coords : List ℝ) (label : String) :
    (add_point hs coords label).base_slope = hs.base_slope := by
  unfold add_point
  cases project hs coords label <;> rfl

lemma add_point_slope_growth (hs : HyperSpace) (coords : List ℝ) (label : String) :
    (add_point hs coords label).slope_growth = hs.slope_growth := by
  unfold add_point
  cases project hs coords label <;> rfl

lemma add_point_angle_step (hs : HyperSpace) (coords : List ℝ) (label : String) :
    (add_point hs coords label).angle_step = hs.angle_step := by
  unfold add_point
  cases project hs coords label <;> rfl

lemma cone_slope_congr (hs hs' : HyperSpace)
    (hb : hs'.base_slope = hs.base_slope) (hg : hs'.slope_growth = hs.slope_growth) :
    _calculate_cone_slope hs' = _calculate_cone_slope hs := by
  funext i
  unfold _calculate_cone_slope
  rw [hb, hg]

lemma clampStep_congr (hs hs' : HyperSpace)
    (hb : hs'.base_slope = hs.base_slope) (hg : hs'.slope_growth = hs.slope_growth) :
    clampStep hs' = clampStep hs := by
  funext i c
  unfold clampStep
  rw [cone_slope_congr hs hs' hb hg]

lemma candidatePos_congr (hs hs' : HyperSpace) (ha : hs'.angle_step = hs.angle_step) :
    candidatePos hs' = candidatePos hs := by
  funext p m i
  unfold candidatePos
  rw [ha]

lemma foldExtras_congr (hs hs' : HyperSpace)
    (hb : hs'.base_slope = hs.base_slope) (hg : hs'.slope_growth = hs.slope_growth)
    (ha : hs'.angle_step = hs.angle_step) :
    ∀ (extras : List ℝ) (pos : Pos) (i : ℕ),
      foldExtras hs' pos extras i = foldExtras hs pos extras i := by
  intro extras
  induction extras with
  | nil =>
    intro pos i
    rfl
  | cons m rest ih =>
    intro pos i
    rw [foldExtras_cons, foldExtras_cons, cone_slope_congr hs hs' hb hg,
      clampStep_congr hs hs' hb hg, candidatePos_congr hs hs' ha, ih]

lemma project_congr (hs hs' : HyperSpace)
    (hd : hs'.limit_dims = hs.limit_dims)
    (hb : hs'.base_slope = hs.base_slope) (hg : hs'.slope_growth = hs.slope_growth)
    (ha : hs'.angle_step = hs.angle_step) (coords : List ℝ) (label : String) :
    project hs' coords label = project hs coords label := by
  have ht : truncate hs' coords = truncate hs coords := by
    unfold truncate
    rw [hd]
  unfold project projectedPoint
  rw [ht, foldExtras_congr hs hs' hb hg ha]

lemma add_point_project_congr (hs : HyperSpace) (c : List ℝ) (l : String) :
    ∀ (coords : List ℝ) (label : String),
      project (add_point hs c l) coords label = project hs coords label := fun coords label =>
  project_congr hs (add_point hs c l) (add_point_limit_dims hs c l)
    (add_point_base_slope hs c l) (add_point_slope_growth hs c l)
    (add_point_angle_step hs c l) coords label

lemma add_point_points_data (hs : HyperSpace) (coords : List ℝ) (label : String) :
    (add_point hs coords label).points_data =
      hs.points_data ++ (project hs coords label).toList := by
  by_cases hc : (truncate hs coords).length < 3
  · rw [add_point_of_none hs coords label (project_of_short hs coords label hc),
      project_of_short hs coords label hc]
    simp
  · push_neg at hc
    rw [add_point_of_some hs coords label _ (project_of_accepted hs coords label hc),
      project_of_accepted hs coords label hc]
    rfl

lemma addPointsAux_points : ∀ (l : List (List ℝ)) (hs : HyperSpace) (i : ℕ),
    (addPointsFromListAux hs i l).points_data =
      hs.points_data ++ (l.enumFrom i).filterMap
        (fun ip => project hs ip.2 ("BatchPoint_" ++ toString (ip.1 + 1))) := by
  intro l
  induction l with
  | nil =>
    intro hs i
    simp [addPointsFromListAux]
  | cons c rest ih =>
    intro hs i
    show (addPointsFromListAux (add_point hs c ("BatchPoint_" ++ toString (i + 1))) (i + 1) rest).points_data = _
    rw [ih, add_point_points_data, List.enumFrom_cons]
    have hcongr : (fun ip : ℕ × List ℝ =>
        project (add_point hs c ("BatchPoint_" ++ toString (i + 1))) ip.2
          ("BatchPoint_" ++ toString (ip.1 + 1))) =
        (fun ip : ℕ × List ℝ => project hs ip.2 ("BatchPoint_" ++ toString (ip.1 + 1))) :=
      funext fun ip => add_point_project_congr hs c ("BatchPoint_" ++ toString (i + 1)) ip.2 _
    rw [hcongr]
    cases hp : project hs c ("BatchPoint_" ++ toString (i + 1)) with
    | none =>
      simp only [List.filterMap_cons]
      rw [hp]
      simp
    | some p =>
      simp only [List.filterMap_cons]
      rw [hp]
      simp

/-- C9: the batch operation projects each entry once, in order, with the
derived label `"BatchPoint_" ++ (ordinal)` (the code's fixed label prefix
followed by the 1-based ordinal), appends exactly the successfully
produced Points in input order, and contributes nothing for rejected
entries. -/
theorem batch_spec (hs : HyperSpace) (list_of_points : List (List ℝ)) :
    (add_points_from_list hs list_of_points).points_data =
      hs.points_data ++ list_of_points.enum.filterMap
        (fun ip => project hs ip.2 ("BatchPoint_" ++ toString (ip.1 + 1))) := by
  unfold add_points_from_list
  rw [addPointsAux_points]
  rfl

/-- Witness for C5: one concrete run from the test harness's instance,
plus the empty fresh collection reporting `max_dims_used = 0`. -/
theorem max_dims_spec_witness :
    CollectionInv (runOps (HyperSpace.init 5 12 (1/4) (3/20) 45)
      [Op.add [8, 0, 0, 2, 20] "Valid Point"]) ∧
    (HyperSpace.init 5 12 (1/4) (3/20) 45).points_data = [] ∧
    (HyperSpace.init 5 12 (1/4) (3/20) 45).max_dims_used = 0 :=
  ⟨max_dims_spec.1 5 12 (1/4) (3/20) 45 [Op.add [8, 0, 0, 2, 20] "Valid Point"],
    rfl, max_dims_spec.2.1 (HyperSpace.init 5 12 (1/4) (3/20) 45) rfl rfl⟩
